import Mathlib

/-!
# Haka-Server: a shallow embedding of the routing and response core

This file embeds the routing and HTTP-response core of the Haka server
(`include/haka/core.hpp`, `include/haka/router.hpp`, `include/haka/server.hpp`)
as executable Lean definitions, and proves or refutes the specification
claims about it.

Strings are modelled by Lean `String`; all operations are written through
the underlying `List Char` (`String.data`) so that list lemmas apply.
Filesystem-dependent operations (`std::filesystem::absolute`, `canonical`,
`exists`, `is_regular_file`, and `ifstream` opening) are abstracted into an
explicit `FS` record of functions, so that `Router::match` and
`Response::sendFile` become pure functions of the filesystem state.
Handlers (`std::function` values) are identified by `Nat` ids; a separate
environment maps ids to behaviours where the behaviour matters.
-/

namespace Haka

/-- `Request::path_starts_with` / `std::string::starts_with`:
`path.rfind(prefix, 0) == 0`, i.e. the prefix test, modelled on the
character lists. The first argument is the whole string, the second the
candidate prefix. -/
def path_starts_with (s pre : String) : Bool :=
  pre.data.isPrefixOf s.data

/-- The list-level body of `Router::normalize_path_segment`:
ensure a leading `'/'` (prepend when the list is empty or does not start
with `'/'`), then remove one trailing `'/'` when the length exceeds 1. -/
def normChars (l : List Char) : List Char :=
  let n := if l.head? = some '/' then l else '/' :: l
  if 1 < n.length ∧ n.getLast? = some '/' then n.dropLast else n

/-- `Router::normalize_path_segment`: ensures the path starts with `'/'`
and strips exactly one trailing `'/'` unless the result would be just `"/"`. -/
def normalize_path_segment (p : String) : String :=
  ⟨normChars p.data⟩

/-- An HTTP request (`Haka::Request`): method, path, headers. -/
structure Request where
  method : String
  path : String
  headers : List (String × String) := []
deriving Repr, DecidableEq

/-- `Request::path_after_prefix`: the part of the path after the prefix,
`"/"` when the path equals the prefix, the whole path when the prefix does
not match. -/
def Request.path_after_prefix (req : Request) (pre : String) : String :=
  if path_starts_with req.path pre then
    if req.path.data.length = pre.data.length then "/"
    else ⟨req.path.data.drop pre.data.length⟩
  else req.path

/-- Insert-or-replace on an association list, mirroring
`std::unordered_map::operator[]` assignment: replace the value at an
existing key, otherwise append the new binding. -/
def mapInsert {α : Type} (l : List (String × α)) (k : String) (v : α) :
    List (String × α) :=
  if l.any (fun p => p.1 == k) then
    l.map (fun p => if p.1 == k then (k, v) else p)
  else l ++ [(k, v)]

/-- Lookup on an association list (`unordered_map::find`). -/
def findVal {α : Type} (l : List (String × α)) (k : String) : Option α :=
  (l.find? (fun p => p.1 == k)).map (fun p => p.2)

/-- An HTTP response (`Haka::Response`): status code, headers, body.
The default constructor sets `Content-Type: text/plain`. -/
structure Response where
  status_code : Nat := 200
  headers : List (String × String) := [("Content-Type", "text/plain")]
  body : String := ""
deriving Repr, DecidableEq

/-- `headers[k] = v` on a response. -/
def Response.setHeader (r : Response) (k v : String) : Response :=
  { r with headers := mapInsert r.headers k v }

/-- `Response::Text`: set `Content-Type: text/plain` and the body. -/
def Response.Text (r : Response) (t : String) : Response :=
  { r.setHeader "Content-Type" "text/plain" with body := t }

/-- `Response::HTML`: set `Content-Type: text/html` and the body. -/
def Response.HTML (r : Response) (t : String) : Response :=
  { r.setHeader "Content-Type" "text/html" with body := t }

/-- `std::filesystem::path::extension` of the final path component:
empty for `"."`, `".."`, dot-less names and leading-dot names, otherwise
the suffix from the last `'.'` on. -/
def extension (p : String) : String :=
  let f := ((p.data.reverse).takeWhile (fun c => c ≠ '/')).reverse
  if f = ['.'] ∨ f = ['.', '.'] then "" else
  let afterDot := (f.reverse).takeWhile (fun c => c ≠ '.')
  if afterDot.length = f.length then ""
  else if afterDot.length + 1 = f.length then ""
  else ⟨'.' :: afterDot.reverse⟩

/-- `Haka::guess_mime_type`: MIME type from the file extension. -/
def guess_mime_type (file_path : String) : String :=
  let ext := extension file_path
  if ext = ".html" ∨ ext = ".htm" then "text/html"
  else if ext = ".css" then "text/css"
  else if ext = ".js" then "application/javascript"
  else if ext = ".json" then "application/json"
  else if ext = ".png" then "image/png"
  else if ext = ".jpg" ∨ ext = ".jpeg" then "image/jpeg"
  else if ext = ".gif" then "image/gif"
  else if ext = ".svg" then "image/svg+xml"
  else if ext = ".pdf" then "application/pdf"
  else "application/octet-stream"

/-- Outcome of `std::ifstream` opening plus the subsequent `read` in
`Response::sendFile`: the stream fails to open, the read fails, or the
whole content is obtained. -/
inductive OpenResult where
  | cantOpen
  | readFail
  | ok (content : String)
deriving Repr, DecidableEq

/-- The filesystem operations `Router::match` and `Response::sendFile`
depend on, abstracted as pure functions of the ambient filesystem state:
`std::filesystem::absolute`, `std::filesystem::canonical` (`none` models a
thrown `filesystem_error`), `std::filesystem::exists`,
`std::filesystem::is_regular_file`, and file opening/reading. -/
structure FS where
  absolute : String → String
  canonical : String → Option String
  fsExists : String → Bool
  isRegularFile : String → Bool
  openFile : String → OpenResult

/-- `Response::sendFile`: on open failure set 404 with a
`"File not found: <path>"` body; on read failure set 500; otherwise load
the body, guess the MIME type, set 200. The `Bool` is the C++ return
value. -/
def Response.sendFile (r : Response) (fs : FS) (file_path : String) :
    Response × Bool :=
  match fs.openFile file_path with
  | .cantOpen =>
      let r1 := { r with status_code := 404 }
      let r2 := { r1 with body := "File not found: " ++ file_path }
      (r2.setHeader "Content-Type" "text/plain", false)
  | .readFail =>
      let r1 := { r with status_code := 500 }
      let r2 := { r1 with body := "Internal Server Error" }
      (r2.setHeader "Content-Type" "text/plain", false)
  | .ok content =>
      let r1 := { r with body := content }
      let r2 := r1.setHeader "Content-Type" (guess_mime_type file_path)
      ({ r2 with status_code := 200 }, true)

/-- Outcome of the external `struct_json::to_json` codec invoked by
`Response::JSON`: success with the serialized text, a fault derived from
`std::exception`, or a fault of any other type. -/
inductive CodecResult where
  | ok (s : String)
  | throwStd (msg : String)
  | throwOther
deriving Repr, DecidableEq

/-- `Response::JSON`: set `Content-Type: application/json`, then run the
codec. A `std::exception` fault is caught and degraded to a 500
`"Internal Server Error"` text response; a fault of any other type
escapes the `catch (const std::exception&)` clause and propagates
(modelled by `Except.error`). -/
def Response.JSON (r : Response) (codec : CodecResult) :
    Except Unit Response :=
  let r1 := r.setHeader "Content-Type" "application/json"
  match codec with
  | .ok s => .ok { r1 with body := s }
  | .throwStd _ =>
      let r2 := { r1 with status_code := 500 }
      let r3 := { r2 with body := "Internal Server Error" }
      .ok (r3.setHeader "Content-Type" "text/plain")
  | .throwOther => .error ()

/-- The reason phrase switch in `Response::to_string`. -/
def statusReason (c : Nat) : String :=
  if c = 100 then "Continue"
  else if c = 101 then "Switching Protocols"
  else if c = 200 then "OK"
  else if c = 201 then "Created"
  else if c = 202 then "Accepted"
  else if c = 204 then "No Content"
  else if c = 301 then "Moved Permanently"
  else if c = 302 then "Found"
  else if c = 304 then "Not Modified"
  else if c = 400 then "Bad Request"
  else if c = 401 then "Unauthorized"
  else if c = 403 then "Forbidden"
  else if c = 404 then "Not Found"
  else if c = 405 then "Method Not Allowed"
  else if c = 500 then "Internal Server Error"
  else if c = 501 then "Not Implemented"
  else if c = 503 then "Service Unavailable"
  else "Unknown Status"

/-- The header lines emitted by `Response::to_string`, as key/value pairs
in emission order: every entry of the `headers` map, then the
unconditionally computed `Content-Length` line. -/
def emittedHeaderPairs (r : Response) : List (String × String) :=
  r.headers ++ [("Content-Length", toString r.body.utf8ByteSize)]

/-- `Response::to_string`: status line, the emitted header lines, a blank
line, the body. -/
def Response.to_string (r : Response) : String :=
  "HTTP/1.1 " ++ toString r.status_code ++ " " ++ statusReason r.status_code
    ++ "\r\n"
  ++ (emittedHeaderPairs r).foldl
      (fun acc p => acc ++ p.1 ++ ": " ++ p.2 ++ "\r\n") ""
  ++ "\r\n" ++ r.body

/-- `Haka::Router`: the explicit route map (keys `"METHOD /full/path"`,
values are handler identifiers standing for the stored `std::function`s),
the static mount list `{url_prefix, fs_path}` in registration order, and
the active group prefix. -/
structure Router where
  routes_ : List (String × Nat) := []
  static_paths_ : List (String × String) := []
  current_group_prefix_ : String := ""
deriving Repr, DecidableEq

/-- `Router::add_route`: store the handler under
`method ++ " " ++ normalize(current_group_prefix_ ++ normalize(path))`. -/
def Router.add_route (r : Router) (method path : String) (h : Nat) : Router :=
  let full_path := normalize_path_segment
    (r.current_group_prefix_ ++ normalize_path_segment path)
  { r with routes_ := mapInsert r.routes_ (method ++ " " ++ full_path) h }

/-- `Router::Get`. -/
def Router.Get (r : Router) (path : String) (h : Nat) : Router :=
  r.add_route "GET" path h

/-- `Router::Post`. -/
def Router.Post (r : Router) (path : String) (h : Nat) : Router :=
  r.add_route "POST" path h

/-- `Router::serveStatic`: push `{normalize(path_prefix), fs_path}`. -/
def Router.serveStatic (r : Router) (path_pfx fs_path : String) : Router :=
  { r with static_paths_ :=
      r.static_paths_ ++ [(normalize_path_segment path_pfx, fs_path)] }

/-- `Router::group`: compose the group prefix, run the configuration
function on the router, restore the saved prefix. -/
def Router.group (r : Router) (prefix_ : String) (config_func : Router → Router) :
    Router :=
  let backup := r.current_group_prefix_
  let r1 := { r with current_group_prefix_ :=
      normalize_path_segment (backup ++ normalize_path_segment prefix_) }
  let r2 := config_func r1
  { r2 with current_group_prefix_ := backup }

/-- The `istringstream >> method >> path` extraction in `Router::mount`
applied to a stored key: first space-delimited token, then the next. -/
def splitKey (k : String) : String × String :=
  let m := k.data.takeWhile (fun c => c ≠ ' ')
  let rest := (k.data.dropWhile (fun c => c ≠ ' ')).drop 1
  (⟨m⟩, ⟨rest.takeWhile (fun c => c ≠ ' ')⟩)

/-- The key a route of the mounted router is re-registered under:
`method ++ " " ++ normalize(mount_prefix ++ normalize(path))` with method
and path parsed back out of the stored key. -/
def composedKey (mp : String) (key : String) : String :=
  let ms := splitKey key
  ms.1 ++ " " ++ normalize_path_segment (mp ++ normalize_path_segment ms.2)

/-- One iteration of the route-merging loop of `Router::mount`. -/
def mountRouteStep (mp : String) (acc : List (String × Nat))
    (kv : String × Nat) : List (String × Nat) :=
  mapInsert acc (composedKey mp kv.1) kv.2

/-- `Router::mount`: re-register every route of `other` under the
composed key, and append every static mount of `other` with its prefix
re-composed under the mount prefix. Both are value copies of `other`'s
current contents. -/
def Router.mount (r : Router) (prefix_ : String) (other : Router) : Router :=
  let mp := normalize_path_segment prefix_
  { r with
    routes_ := other.routes_.foldl (mountRouteStep mp) r.routes_,
    static_paths_ := r.static_paths_ ++ other.static_paths_.map
      (fun e => (normalize_path_segment (mp ++ normalize_path_segment e.1),
                 e.2)) }

/-- The static-prefix test of `Router::match` (router.hpp lines 185-192):
`(url_prefix == "/" && req.path == "/") || (url_prefix != "/" &&
req.path_starts_with(url_prefix + "/"))`, then the special case forcing a
match when the prefix is `"/"` and the path starts with `"/"`. -/
def staticPrefixMatches (upfx path : String) : Bool :=
  let base := ((upfx == "/") && (path == "/"))
    || ((upfx != "/") && path_starts_with path (upfx ++ "/"))
  if (upfx == "/") && path_starts_with path "/" then true else base

/-- The relative candidate path of a static lookup: the request path
after the prefix (the whole path for a root mount), with `""` and `"/"`
replaced by `"/index.html"`. -/
def candidateSubPath (upfx reqPath : String) : String :=
  let s := if upfx == "/" then reqPath
    else Request.path_after_prefix ⟨"", reqPath, []⟩ upfx
  if s = "" ∨ s = "/" then "/index.html" else s

/-- `std::filesystem::path::operator/` for an absolute base and a
relative tail: insert a separator unless the base already ends in one. -/
def fsJoin (a b : String) : String :=
  if a.data.getLast? = some '/' then a ++ b else a ++ "/" ++ b

/-- The full filesystem candidate `full_fs_path` of a static lookup:
absolute mount root joined with the sub-path stripped of its leading
slash. -/
def candidatePath (fs : FS) (upfx fs_root reqPath : String) : String :=
  let sub := candidateSubPath upfx reqPath
  let rel : String := if sub.data.head? = some '/' then ⟨sub.data.drop 1⟩
    else sub
  fsJoin (fs.absolute fs_root) rel

/-- The outcome of one iteration of the static-mount loop of
`Router::match`: the prefix does not match; the canonical-path security
check fails (terminal 400); the file exists and is served; or the entry
is skipped and the loop continues. -/
inductive StepRes where
  | noMatch
  | badReq
  | serve (fp : String)
  | skip
deriving Repr, DecidableEq

/-- One iteration of the static-mount loop of `Router::match`: prefix
test, canonical-path containment check (a canonicalization failure is
caught and falls through to the existence check), then the
exists/is_regular_file check. -/
def staticStep (fs : FS) (req : Request) (e : String × String) : StepRes :=
  if staticPrefixMatches e.1 req.path then
    let full := candidatePath fs e.1 e.2 req.path
    let afterCheck : StepRes :=
      if fs.fsExists full && fs.isRegularFile full then .serve full
      else .skip
    match fs.canonical (fs.absolute e.2), fs.canonical full with
    | some cr, some cf =>
        if path_starts_with cf cr then afterCheck else .badReq
    | _, _ => afterCheck
  else .noMatch

/-- What `Router::match` returns, by case: the terminal 400
`"Invalid path."` handler, a file-serving handler, an explicit route's
handler, or the 404 handler. -/
inductive MatchResult where
  | badRequest
  | serveFile (fp : String)
  | handler (h : Nat)
  | notFound
deriving Repr, DecidableEq

/-- The static-mount loop of `Router::match` over the mount list. -/
def matchStatics (fs : FS) (req : Request) :
    List (String × String) → MatchResult ⊕ Unit
  | [] => .inr ()
  | e :: rest =>
    match staticStep fs req e with
    | .noMatch => matchStatics fs req rest
    | .skip => matchStatics fs req rest
    | .badReq => .inl .badRequest
    | .serve fp => .inl (.serveFile fp)

/-- `Router::match`: run the static-mount loop; when it falls through,
look the request up in the explicit route map under
`method ++ " " ++ normalize(path)`; otherwise the 404 handler. -/
def Router.match (r : Router) (fs : FS) (req : Request) : MatchResult :=
  match matchStatics fs req r.static_paths_ with
  | .inl res => res
  | .inr () =>
    match findVal r.routes_ (req.method ++ " " ++
        normalize_path_segment req.path) with
    | some h => .handler h
    | none => .notFound

/-- Behaviour of the handler `Router::match` returned, given an
environment interpreting stored handler ids: the 400 handler sets status
400 and `Text("Invalid path.")`; the file handler calls `sendFile`; the
404 handler sets status 404 and `Text("Not found: <path>")`. -/
def runMatchResult (fs : FS) (env : Nat → Request → Response → Response)
    (m : MatchResult) (req : Request) (res : Response) : Response :=
  match m with
  | .badRequest => ({ res with status_code := 400 }).Text "Invalid path."
  | .serveFile fp => (res.sendFile fs fp).1
  | .handler h => env h req res
  | .notFound =>
      ({ res with status_code := 404 }).Text ("Not found: " ++ req.path)

/-- Result of invoking a handler on (`request_`, `response_`) inside
`Connection::process_request`: normal completion with the final response
state, a fault derived from `std::exception` (with the response state at
the throw point), or a fault of any other type. -/
inductive HandlerOutcome where
  | ok (r : Response)
  | throwStd (r : Response) (msg : String)
  | throwOther (r : Response)
deriving Repr, DecidableEq

/-- Whether the handler invocation raised a fault (of either kind). -/
def HandlerOutcome.isFault : HandlerOutcome → Bool
  | .ok _ => false
  | .throwStd _ _ => true
  | .throwOther _ => true

/-- `Connection::process_request`: invoke the matched handler; both
`catch (const std::exception&)` and `catch (...)` set status 500 and
`Text("Internal Server Error")` on the current response state; in every
case `send_response()` is then called (the `Bool` records that the
connection proceeds to write the response and close the socket). -/
def process_request (handler : Request → Response → HandlerOutcome)
    (req : Request) (res : Response) : Response × Bool :=
  match handler req res with
  | .ok r => (r, true)
  | .throwStd r _ =>
      (({ r with status_code := 500 }).Text "Internal Server Error", true)
  | .throwOther r =>
      (({ r with status_code := 500 }).Text "Internal Server Error", true)

/-- A demonstration filesystem: only `/pub/index.html` exists, and
`canonical` succeeds everywhere without rewriting (no symlinks, no
dot-dot segments involved). -/
def exampleStaticEqFS : FS where
  absolute := id
  canonical := some
  fsExists := fun s => s == "/pub/index.html"
  isRegularFile := fun s => s == "/pub/index.html"
  openFile := fun _ => .cantOpen

/-- A demonstration filesystem for the traversal-bypass scenario: the
mount root `/srv/pub` canonicalizes to itself, and the candidate
`/srv/pub/../public/x` canonicalizes to `/srv/public/x` — a file in the
sibling directory `/srv/public`, outside the mount root's tree — and that
candidate exists as a regular file. -/
def exampleTraversalFS : FS where
  absolute := id
  canonical := fun s =>
    if s == "/srv/pub" then some "/srv/pub"
    else if s == "/srv/pub/../public/x" then some "/srv/public/x"
    else none
  fsExists := fun s => s == "/srv/pub/../public/x"
  isRegularFile := fun s => s == "/srv/pub/../public/x"
  openFile := fun _ => .cantOpen

/-- A demonstration filesystem where the candidate
`/pub/../etc/passwd` canonicalizes to `/etc/passwd`, escaping the mount
root `/pub`. -/
def exampleTraversalRejectFS : FS where
  absolute := id
  canonical := fun s =>
    if s == "/pub" then some "/pub"
    else if s == "/pub/../etc/passwd" then some "/etc/passwd"
    else none
  fsExists := fun _ => true
  isRegularFile := fun _ => true
  openFile := fun _ => .cantOpen

/-- Well-formedness of a stored route key, as maintained by
`Router::add_route` and `Router::mount`: the key is literally
`method ++ " " ++ path` for the method/path that `splitKey` parses back
out of it, and the path component is a fixed point of
`normalize_path_segment` (both registration paths store only normalized
paths). -/
def wfKey (k : String) : Bool :=
  ((splitKey k).1 ++ " " ++ (splitKey k).2 == k) &&
  (normalize_path_segment (splitKey k).2 == (splitKey k).2)

/-! ## Helper lemmas -/

theorem find?_cons_pos {α : Type} (q : α → Bool) (a : α) (l : List α)
    (h : q a = true) : (a :: l).find? q = some a := by
  rw [List.find?_cons, h]

theorem find?_cons_neg {α : Type} (q : α → Bool) (a : α) (l : List α)
    (h : q a = false) : (a :: l).find? q = l.find? q := by
  rw [List.find?_cons, h]

theorem find?_replace_self {α : Type} (t : List (String × α)) (k : String)
    (v : α) (h : t.any (fun p => p.1 == k) = true) :
    (t.map (fun p => if p.1 == k then (k, v) else p)).find?
      (fun p => p.1 == k) = some (k, v) := by
  induction t with
  | nil => simp at h
  | cons a t ih =>
    by_cases ha : (a.1 == k) = true
    · simp only [List.map_cons, if_pos ha]
      rw [find?_cons_pos (fun p : String × α => p.1 == k) _ _ (by simp)]
    · simp only [List.any_cons, ha, Bool.false_or] at h
      simp only [List.map_cons, if_neg ha]
      rw [find?_cons_neg (fun p : String × α => p.1 == k) _ _ (by simpa using ha)]
      exact ih h

theorem find?_append_self {α : Type} (t : List (String × α)) (k : String)
    (v : α) (h : t.any (fun p => p.1 == k) = false) :
    (t ++ [(k, v)]).find? (fun p => p.1 == k) = some (k, v) := by
  induction t with
  | nil =>
    rw [List.nil_append, find?_cons_pos (fun p : String × α => p.1 == k) _ _ (by simp)]
  | cons a t ih =>
    simp only [List.any_cons, Bool.or_eq_false_iff] at h
    rw [List.cons_append, find?_cons_neg (fun p : String × α => p.1 == k) _ _ h.1, ih h.2]

theorem find?_replace_ne {α : Type} (t : List (String × α)) (k k' : String)
    (v : α) (hne : k' ≠ k) :
    (t.map (fun p => if p.1 == k then (k, v) else p)).find?
      (fun p => p.1 == k') = t.find? (fun p => p.1 == k') := by
  have hkk : (k == k') = false := by
    simp only [beq_eq_false_iff_ne, ne_eq]
    exact fun hh => hne hh.symm
  induction t with
  | nil => rfl
  | cons a t ih =>
    by_cases ha : (a.1 == k) = true
    · have ha' : a.1 = k := by simpa using ha
      simp only [List.map_cons, if_pos ha]
      rw [find?_cons_neg (fun p : String × α => p.1 == k') _ _ hkk,
        find?_cons_neg (fun p : String × α => p.1 == k') _ _
          (by show (a.1 == k') = false; rw [ha']; exact hkk), ih]
    · simp only [List.map_cons, if_neg ha]
      by_cases ha' : (a.1 == k') = true
      · rw [find?_cons_pos (fun p : String × α => p.1 == k') _ _ ha',
          find?_cons_pos (fun p : String × α => p.1 == k') _ _ ha']
      · rw [find?_cons_neg (fun p : String × α => p.1 == k') _ _ (by simpa using ha'),
          find?_cons_neg (fun p : String × α => p.1 == k') _ _ (by simpa using ha'), ih]

theorem find?_append_ne {α : Type} (t : List (String × α)) (k k' : String)
    (v : α) (hne : k' ≠ k) :
    (t ++ [(k, v)]).find? (fun p => p.1 == k')
      = t.find? (fun p => p.1 == k') := by
  have hkk : (k == k') = false := by
    simp only [beq_eq_false_iff_ne, ne_eq]
    exact fun hh => hne hh.symm
  induction t with
  | nil =>
    rw [List.nil_append, find?_cons_neg (fun p : String × α => p.1 == k') _ _ hkk]
  | cons a t ih =>
    by_cases ha' : (a.1 == k') = true
    · rw [List.cons_append, find?_cons_pos (fun p : String × α => p.1 == k') _ _ ha',
        find?_cons_pos (fun p : String × α => p.1 == k') _ _ ha']
    · rw [List.cons_append,
        find?_cons_neg (fun p : String × α => p.1 == k') _ _ (by simpa using ha'),
        find?_cons_neg (fun p : String × α => p.1 == k') _ _ (by simpa using ha'), ih]

theorem findVal_mapInsert_self {α : Type} (l : List (String × α)) (k : String)
    (v : α) : findVal (mapInsert l k v) k = some v := by
  rw [mapInsert, findVal]
  by_cases h : l.any (fun p => p.1 == k)
  · rw [if_pos h, find?_replace_self l k v h]
    rfl
  · rw [if_neg h, find?_append_self l k v (Bool.not_eq_true _ ▸ h)]
    rfl

theorem findVal_mapInsert_of_ne {α : Type} (l : List (String × α))
    (k k' : String) (v : α) (h : k' ≠ k) :
    findVal (mapInsert l k v) k' = findVal l k' := by
  rw [mapInsert, findVal, findVal]
  by_cases hany : l.any (fun p => p.1 == k)
  · rw [if_pos hany, find?_replace_ne l k k' v h]
  · rw [if_neg hany, find?_append_ne l k k' v h]

theorem countP_key_eq_one {α : Type} (l : List (String × α)) (k : String)
    (hnd : (l.map Prod.fst).Nodup) (v : α) (hmem : (k, v) ∈ l) :
    l.countP (fun p => p.1 == k) = 1 := by
  induction l with
  | nil => simp at hmem
  | cons a t ih =>
    simp only [List.map_cons, List.nodup_cons] at hnd
    rw [List.countP_cons]
    rcases List.mem_cons.mp hmem with h | h
    · subst h
      have hz : t.countP (fun p => p.1 == k) = 0 := by
        rw [List.countP_eq_zero]
        intro p hp hk
        have hpk : p.1 = k := by simpa using hk
        have hk0 : p.1 ∈ List.map Prod.fst t :=
          List.mem_map_of_mem Prod.fst hp
        rw [hpk] at hk0
        exact hnd.1 hk0
      rw [hz]
      simp
    · have hka : (a.1 == k) = false := by
        simp only [beq_eq_false_iff_ne, ne_eq]
        intro hh
        have hk0 : k ∈ List.map Prod.fst t := by
          simpa using List.mem_map_of_mem Prod.fst h
        exact hnd.1 (by rw [hh]; exact hk0)
      rw [ih hnd.2 h, hka]
      simp

/-! ## Claim theorems -/

/-- C4: the spec (and the function's own doc comment) say a normalized
path never ends in `'/'` unless it is exactly `"/"`; but
`normalize_path_segment` strips exactly one trailing slash, so the input
`"/a//"` yields `"/a/"`, which ends in `'/'` and is not `"/"`. The code
contradicts its stated invariant. -/
theorem normalize_trailing_slash_bug :
    normalize_path_segment "/a//" = "/a/"
    ∧ (normalize_path_segment "/a//").data.getLast? = some '/'
    ∧ normalize_path_segment "/a//" ≠ "/" := by decide

/-- C3: any fault raised by a handler inside
`Connection::process_request` — whether derived from `std::exception` or
of any other type — is caught; the response is set to status 500 with
body `"Internal Server Error"` and `Content-Type: text/plain`, and the
connection still proceeds to `send_response()` (writing the response and
closing the socket). The catch never re-raises, so the fault cannot
propagate out of the connection. -/
theorem process_request_catches_faults
    (handler : Request → Response → HandlerOutcome) (req : Request)
    (res : Response) (hf : (handler req res).isFault = true) :
    (process_request handler req res).2 = true
    ∧ (process_request handler req res).1.status_code = 500
    ∧ (process_request handler req res).1.body = "Internal Server Error"
    ∧ findVal (process_request handler req res).1.headers "Content-Type"
        = some "text/plain" := by
  cases ho : handler req res with
  | ok r => rw [ho] at hf; simp [HandlerOutcome.isFault] at hf
  | throwStd r msg =>
    simp only [process_request, ho]
    exact ⟨by trivial, by trivial, by trivial, findVal_mapInsert_self _ _ _⟩
  | throwOther r =>
    simp only [process_request, ho]
    exact ⟨by trivial, by trivial, by trivial, findVal_mapInsert_self _ _ _⟩

theorem process_request_catches_faults_witness :
    ((fun (_ : Request) (r : Response) => HandlerOutcome.throwOther r)
        ⟨"GET", "/", []⟩ {}).isFault = true
    ∧ (process_request
        (fun _ r => HandlerOutcome.throwOther r) ⟨"GET", "/", []⟩ {}).1.body
        = "Internal Server Error" :=
  ⟨rfl, (process_request_catches_faults
    (fun _ r => HandlerOutcome.throwOther r) ⟨"GET", "/", []⟩ {} rfl).2.2.1⟩

/-- C7 counterexample: the claim says `Response::JSON` never raises,
regardless of the kind of fault the codec throws. But the catch clause is
`catch (const std::exception&)` only: a codec fault not derived from
`std::exception` propagates out of `JSON` (modelled as `Except.error`),
refuting the claim at this concrete input. -/
theorem json_throwOther_propagates :
    Response.JSON {} CodecResult.throwOther = Except.error () := rfl

/-- C7 amended: when the codec fault is derived from `std::exception`,
`Response::JSON` degrades gracefully — status 500, body
`"Internal Server Error"`, `Content-Type` reverted to `text/plain` — and
does not raise; a codec fault of any other type escapes the
`catch (const std::exception&)` clause and propagates out of `JSON`. -/
theorem json_fault_behaviour (res : Response) (msg : String) :
    (Response.JSON res (.throwStd msg)).toOption.map Response.status_code
      = some 500
    ∧ (Response.JSON res (.throwStd msg)).toOption.map Response.body
      = some "Internal Server Error"
    ∧ (Response.JSON res (.throwStd msg)).toOption.map
        (fun r => findVal r.headers "Content-Type")
      = some (some "text/plain")
    ∧ Response.JSON res .throwOther = .error () := by
  refine ⟨rfl, rfl, ?_, rfl⟩
  simp only [Response.JSON, Except.toOption, Option.map, Response.setHeader]
  rw [findVal_mapInsert_self]

/-- C9: when the file cannot be opened, `Response::sendFile` sets status
404 and `Content-Type: text/plain`, returns `false`, and puts the
server-side filesystem path verbatim into the body as
`"File not found: <path>"` — disclosing the path to the client. -/
theorem sendFile_not_found (fs : FS) (res : Response) (path : String)
    (h : fs.openFile path = .cantOpen) :
    (res.sendFile fs path).2 = false
    ∧ (res.sendFile fs path).1.status_code = 404
    ∧ (res.sendFile fs path).1.body = "File not found: " ++ path
    ∧ findVal (res.sendFile fs path).1.headers "Content-Type"
        = some "text/plain" := by
  simp only [Response.sendFile, h, Response.setHeader]
  exact ⟨by trivial, by trivial, by trivial, findVal_mapInsert_self _ _ _⟩

theorem sendFile_not_found_witness :
    exampleStaticEqFS.openFile "/secret/f.txt" = .cantOpen
    ∧ (Response.sendFile {} exampleStaticEqFS "/secret/f.txt").1.body
        = "File not found: /secret/f.txt" :=
  ⟨rfl, (sendFile_not_found exampleStaticEqFS {} "/secret/f.txt" rfl).2.2.1⟩

/-- C10: `Response::to_string` emits every entry of the `headers` map and
then unconditionally appends a computed `Content-Length` line
(`emittedHeaderPairs` is exactly the list of header lines the fold in
`to_string` renders). So whenever the headers map itself contains a
`Content-Length` key, at least two `Content-Length` lines are rendered —
exactly two when the map's keys are distinct, as `unordered_map`
guarantees. -/
theorem to_string_double_content_length (r : Response) (v : String)
    (hmem : ("Content-Length", v) ∈ r.headers) :
    2 ≤ (emittedHeaderPairs r).countP (fun p => p.1 == "Content-Length")
    ∧ ((r.headers.map Prod.fst).Nodup →
        (emittedHeaderPairs r).countP (fun p => p.1 == "Content-Length")
          = 2) := by
  constructor
  · unfold emittedHeaderPairs
    rw [List.countP_append]
    have h1 : 0 < r.headers.countP (fun p => p.1 == "Content-Length") :=
      List.countP_pos_iff.mpr ⟨_, hmem, by simp⟩
    have h2 : (0 : Nat) <
        [("Content-Length", toString r.body.utf8ByteSize)].countP
          (fun p => p.1 == "Content-Length") := by simp
    omega
  · intro hnd
    unfold emittedHeaderPairs
    rw [List.countP_append, countP_key_eq_one r.headers "Content-Length" hnd v
      hmem]
    simp

theorem to_string_double_content_length_witness :
    (("Content-Length", "7") ∈
      ({ headers := [("Content-Type", "text/plain"), ("Content-Length", "7")] }
        : Response).headers)
    ∧ 2 ≤ (emittedHeaderPairs
        { headers := [("Content-Type", "text/plain"),
                      ("Content-Length", "7")] }).countP
          (fun p => p.1 == "Content-Length") :=
  ⟨by simp, (to_string_double_content_length
    { headers := [("Content-Type", "text/plain"), ("Content-Length", "7")] }
    "7" (by simp)).1⟩

/-- C1 counterexample: the claim says a request path exactly equal to a
non-root mount prefix matches that mount. In the code the non-root test
is `req.path_starts_with(url_prefix + "/")` only, so path `"/static"`
against mount prefix `"/static"` does not match: even with
`/pub/index.html` present (which would be served for `"/static/"`),
`Router::match` falls through to the 404 handler for `"/static"`. -/
theorem static_equal_prefix_counterexample :
    exampleStaticEqFS.fsExists "/pub/index.html" = true
    ∧ exampleStaticEqFS.isRegularFile "/pub/index.html" = true
    ∧ staticPrefixMatches "/static" "/static" = false
    ∧ Router.match ⟨[], [("/static", "/pub")], ""⟩ exampleStaticEqFS
        ⟨"GET", "/static", []⟩ = .notFound
    ∧ Router.match ⟨[], [("/static", "/pub")], ""⟩ exampleStaticEqFS
        ⟨"GET", "/static/", []⟩ = .serveFile "/pub/index.html" := by
  refine ⟨rfl, rfl, rfl, ?_, ?_⟩ <;> rfl

/-- C1 amended: a static mount whose normalized prefix `P` is not `"/"`
matches a request if and only if the request path starts with
`P ++ "/"` — a path exactly equal to `P` does *not* match; and a mount
whose prefix is `"/"` matches exactly the request paths that start with
`"/"`. -/
theorem static_prefix_match_amended (P path : String) :
    (P ≠ "/" → staticPrefixMatches P path = path_starts_with path (P ++ "/"))
    ∧ staticPrefixMatches "/" path = path_starts_with path "/" := by
  constructor
  · intro h
    have hP : (P == "/") = false := by
      simp only [beq_eq_false_iff_ne, ne_eq]
      exact h
    simp [staticPrefixMatches, hP, bne]
  · by_cases hsw : path_starts_with path "/" = true
    · simp [staticPrefixMatches, hsw]
    · have hsw' : path_starts_with path "/" = false :=
        Bool.not_eq_true _ ▸ hsw
      have hpne : (path == "/") = false := by
        simp only [beq_eq_false_iff_ne, ne_eq]
        intro hh
        rw [hh] at hsw'
        exact absurd hsw' (by decide)
      simp [staticPrefixMatches, hsw', hpne]

theorem static_prefix_match_amended_witness :
    ("/static" : String) ≠ "/"
    ∧ staticPrefixMatches "/static" "/static/x"
        = path_starts_with "/static/x" ("/static" ++ "/") :=
  ⟨by decide, (static_prefix_match_amended "/static" "/static/x").1 (by decide)⟩

/-- C8: the canonical-path containment check compares the two canonical
paths as raw strings with `starts_with` and no directory-separator
boundary. With mount root `/srv/pub` and request
`GET /static/../public/x`, the candidate `/srv/pub/../public/x`
canonicalizes to `/srv/public/x` — a file outside the root's tree whose
canonical string nevertheless begins with `/srv/pub` — so no 400 is
returned and `Router::match` returns a handler serving that outside
file. -/
theorem traversal_boundary_bypass :
    path_starts_with "/srv/public/x" "/srv/pub" = true
    ∧ path_starts_with "/srv/public/x" ("/srv/pub" ++ "/") = false
    ∧ ("/srv/public/x" : String) ≠ "/srv/pub"
    ∧ exampleTraversalFS.canonical
        (candidatePath exampleTraversalFS "/static" "/srv/pub"
          "/static/../public/x") = some "/srv/public/x"
    ∧ Router.match ⟨[], [("/static", "/srv/pub")], ""⟩ exampleTraversalFS
        ⟨"GET", "/static/../public/x", []⟩
        = .serveFile "/srv/pub/../public/x" := by
  refine ⟨rfl, rfl, by decide, rfl, rfl⟩

theorem matchStatics_skip_front (fs : FS) (req : Request)
    (pre l : List (String × String))
    (hpre : ∀ e ∈ pre,
      staticStep fs req e = .noMatch ∨ staticStep fs req e = .skip) :
    matchStatics fs req (pre ++ l) = matchStatics fs req l := by
  induction pre with
  | nil => rfl
  | cons a t ih =>
    have ht : ∀ e ∈ t,
        staticStep fs req e = .noMatch ∨ staticStep fs req e = .skip :=
      fun e he => hpre e (List.mem_cons_of_mem a he)
    rcases hpre a (List.mem_cons_self a t) with h | h <;>
      · rw [List.cons_append]
        simp only [matchStatics, h]
        exact ih ht

/-- C2: when a request matches a static mount (every earlier mount
having been skipped without serving), both canonicalizations succeed,
and the candidate's canonical form does not have the root's canonical
form as a prefix, `Router::match` returns the terminal 400 handler —
whatever static mounts follow and whatever the explicit route table
contains, neither is consulted — and that handler produces status 400
with body `"Invalid path."` and `Content-Type: text/plain`. -/
theorem match_traversal_rejected (R : Router) (fs : FS) (req : Request)
    (res : Response) (env : Nat → Request → Response → Response)
    (pre rest : List (String × String)) (P root cr cf : String)
    (hsp : R.static_paths_ = pre ++ (P, root) :: rest)
    (hpre : ∀ e ∈ pre,
      staticStep fs req e = .noMatch ∨ staticStep fs req e = .skip)
    (hm : staticPrefixMatches P req.path = true)
    (h1 : fs.canonical (fs.absolute root) = some cr)
    (h2 : fs.canonical (candidatePath fs P root req.path) = some cf)
    (h3 : path_starts_with cf cr = false) :
    Router.match R fs req = .badRequest
    ∧ (runMatchResult fs env .badRequest req res).status_code = 400
    ∧ (runMatchResult fs env .badRequest req res).body = "Invalid path."
    ∧ findVal (runMatchResult fs env .badRequest req res).headers
        "Content-Type" = some "text/plain" := by
  have hstep : staticStep fs req (P, root) = .badReq := by
    simp only [staticStep, hm, if_true]
    rw [h1, h2]
    simp only [h3]
    rfl
  have hms : matchStatics fs req R.static_paths_ = .inl .badRequest := by
    rw [hsp, matchStatics_skip_front fs req pre _ hpre]
    simp only [matchStatics, hstep]
  refine ⟨?_, by trivial, by trivial, ?_⟩
  · rw [Router.match, hms]
  · exact findVal_mapInsert_self _ _ _

theorem match_traversal_rejected_witness :
    Router.match ⟨[("GET /x", 9)], [("/static", "/pub")], ""⟩
      exampleTraversalRejectFS ⟨"GET", "/static/../etc/passwd", []⟩
      = .badRequest :=
  (match_traversal_rejected ⟨[("GET /x", 9)], [("/static", "/pub")], ""⟩
    exampleTraversalRejectFS ⟨"GET", "/static/../etc/passwd", []⟩ {}
    (fun _ _ r => r) [] [] "/static" "/pub" "/pub" "/etc/passwd"
    rfl (by simp) rfl rfl rfl rfl).1

theorem str_append_left_cancel (s a b : String) (h : s ++ a = s ++ b) :
    a = b := by
  have hd := congrArg String.data h
  simp only [String.data_append] at hd
  exact String.ext (List.append_cancel_left hd)

theorem findVal_singleton {α : Type} (k key : String) (v : α) :
    findVal [(k, v)] key = if k = key then some v else none := by
  by_cases h : k = key
  · rw [findVal, find?_cons_pos (fun p : String × α => p.1 == key) _ _
      (by simp [h]), if_pos h]
    rfl
  · rw [findVal, find?_cons_neg (fun p : String × α => p.1 == key) _ _
      (by simp [h]), if_neg h]
    rfl

theorem match_singleton_route (fs : FS) (k : String) (v : Nat)
    (req : Request) :
    Router.match ⟨[(k, v)], [], ""⟩ fs req
      = if k = req.method ++ " " ++ normalize_path_segment req.path
        then .handler v else .notFound := by
  show (match findVal [(k, v)] (req.method ++ " " ++
      normalize_path_segment req.path) with
    | some h => MatchResult.handler h
    | none => MatchResult.notFound) = _
  rw [findVal_singleton]
  by_cases h : k = req.method ++ " " ++ normalize_path_segment req.path
  · rw [if_pos h, if_pos h]
  · rw [if_neg h, if_neg h]

/-- C6: `group(prefix, fn)` registers every route added inside `fn` via
`Get`/`Post` under the composed key
`normalize(normalize(current_prefix ++ normalize(prefix)) ++ normalize(path))`
and nowhere else (the route map changes by exactly that one insertion);
after `group` returns the previous group prefix is restored, so a route
registered afterwards uses the outer prefix; and concretely,
`group("/api", fn)` with `Get("/x", h)` inside makes `h` reachable
exactly at the paths normalizing to `"/api/x"`. -/
theorem group_scopes_routes (r : Router) (p path q2 : String) (h h2 hh : Nat)
    (fn : Router → Router) (fs : FS) (rp : String) :
    ((r.group p (fun ri => ri.Get path h)).routes_
      = mapInsert r.routes_
          ("GET " ++ normalize_path_segment
            (normalize_path_segment
              (r.current_group_prefix_ ++ normalize_path_segment p)
              ++ normalize_path_segment path)) h)
    ∧ ((r.group p fn).current_group_prefix_ = r.current_group_prefix_)
    ∧ (((r.group p (fun ri => ri.Get path h)).Get q2 h2).routes_
        = mapInsert (r.group p (fun ri => ri.Get path h)).routes_
            ("GET " ++ normalize_path_segment
              (r.current_group_prefix_ ++ normalize_path_segment q2)) h2)
    ∧ (Router.match (Router.group {} "/api" (fun ri => ri.Get "/x" hh)) fs
          ⟨"GET", rp, []⟩ = .handler hh
        ↔ normalize_path_segment rp = "/api/x") := by
  refine ⟨rfl, rfl, rfl, ?_⟩
  have hG : Router.group {} "/api" (fun ri => ri.Get "/x" hh)
      = (⟨[("GET /api/x", hh)], [], ""⟩ : Router) := rfl
  rw [hG, match_singleton_route]
  dsimp only
  constructor
  · intro hmatch
    by_cases hk : ("GET /api/x" : String)
        = "GET" ++ " " ++ normalize_path_segment rp
    · have hc : ("GET" ++ " " ++ "/api/x" : String)
          = "GET" ++ " " ++ normalize_path_segment rp := by
        rw [← hk]
        decide
      exact (str_append_left_cancel ("GET" ++ " ") _ _ hc).symm
    · rw [if_neg hk] at hmatch
      exact absurd hmatch (by simp)
  · intro hn
    have hk : ("GET /api/x" : String)
        = "GET" ++ " " ++ normalize_path_segment rp := by
      rw [hn]
      decide
    rw [if_pos hk]

theorem head?_dropLast_of_lt (m : List Char) (hlen : 1 < m.length) :
    m.dropLast.head? = m.head? := by
  cases m with
  | nil => simp at hlen
  | cons a t =>
    cases t with
    | nil => simp at hlen
    | cons b t2 => rfl

theorem normChars_head (l : List Char) : (normChars l).head? = some '/' := by
  simp only [normChars]
  by_cases h : l.head? = some '/'
  · rw [if_pos h]
    by_cases hc : 1 < l.length ∧ l.getLast? = some '/'
    · rw [if_pos hc, head?_dropLast_of_lt l hc.1]
      exact h
    · rw [if_neg hc]
      exact h
  · rw [if_neg h]
    by_cases hc : 1 < ('/' :: l).length ∧ ('/' :: l).getLast? = some '/'
    · rw [if_pos hc, head?_dropLast_of_lt _ hc.1]
      rfl
    · rw [if_neg hc]
      rfl

theorem normChars_fix (l : List Char) (hfix : normChars l = l) :
    l = ['/'] ∨ l.getLast? ≠ some '/' := by
  simp only [normChars] at hfix
  by_cases h : l.head? = some '/'
  · rw [if_pos h] at hfix
    by_cases hc : 1 < l.length ∧ l.getLast? = some '/'
    · rw [if_pos hc] at hfix
      have hlen := congrArg List.length hfix
      rw [List.length_dropLast] at hlen
      omega
    · rcases Classical.em (l.getLast? = some '/') with hg | hg
      · left
        have hlen : ¬1 < l.length := fun hlt => hc ⟨hlt, hg⟩
        cases l with
        | nil => simp at h
        | cons a t =>
          cases t with
          | nil =>
            have ha : a = '/' := by simpa using h
            rw [ha]
          | cons b t2 => simp at hlen
      · right
        exact hg
  · rw [if_neg h] at hfix
    by_cases hc : 1 < ('/' :: l).length ∧ ('/' :: l).getLast? = some '/'
    · rw [if_pos hc] at hfix
      cases l with
      | nil => simp at hc
      | cons a t =>
        have hd : ('/' :: a :: t).dropLast = '/' :: (a :: t).dropLast := rfl
        rw [hd] at hfix
        have ha : '/' = a := by injection hfix
        exact absurd (show (a :: t).head? = some '/' by rw [← ha]; rfl) h
    · rw [if_neg hc] at hfix
      have hlen := congrArg List.length hfix
      simp at hlen

theorem norm_head (p : String) :
    (normalize_path_segment p).data.head? = some '/' :=
  normChars_head p.data

theorem norm_fix_facts (q : String) (hq : normalize_path_segment q = q) :
    q.data.head? = some '/' ∧ (q = "/" ∨ q.data.getLast? ≠ some '/') := by
  have hfix : normChars q.data = q.data := congrArg String.data hq
  constructor
  · rw [← hfix]
    exact normChars_head q.data
  · rcases normChars_fix q.data hfix with h1 | h2
    · left
      exact String.ext h1
    · right
      exact h2

theorem data_ne_nil_of_head (s : String) (h : s.data.head? = some '/') :
    s.data ≠ [] := by
  intro hh
  rw [hh] at h
  simp at h

theorem normalize_append_fix (mp q : String) (hmp : mp.data.head? = some '/')
    (hq : normalize_path_segment q = q) (hqr : q ≠ "/") :
    normalize_path_segment (mp ++ q) = mp ++ q := by
  obtain ⟨hqh, hql⟩ := norm_fix_facts q hq
  have hql' : q.data.getLast? ≠ some '/' := by
    rcases hql with h | h
    · exact absurd h hqr
    · exact h
  have hqne : q.data ≠ [] := data_ne_nil_of_head q hqh
  apply String.ext
  show normChars (mp ++ q).data = (mp ++ q).data
  rw [String.data_append]
  simp only [normChars]
  have hhead : (mp.data ++ q.data).head? = some '/' := by
    rw [List.head?_append, hmp]
    rfl
  rw [if_pos hhead]
  have hlast : (mp.data ++ q.data).getLast? = q.data.getLast? := by
    rw [List.getLast?_append]
    cases hqd : q.data.getLast? with
    | none => exact absurd (List.getLast?_eq_none_iff.mp hqd) hqne
    | some c => rfl
  rw [if_neg (fun hc => hql' (hlast ▸ hc.2))]

theorem normalize_append_root (mp : String)
    (hmp : mp.data.head? = some '/') :
    normalize_path_segment (mp ++ "/") = mp := by
  have hmpne : mp.data ≠ [] := data_ne_nil_of_head mp hmp
  apply String.ext
  show normChars (mp ++ "/").data = mp.data
  rw [String.data_append]
  have hsd : ("/" : String).data = ['/'] := rfl
  rw [hsd]
  simp only [normChars]
  have hhead : (mp.data ++ ['/']).head? = some '/' := by
    rw [List.head?_append, hmp]
    rfl
  rw [if_pos hhead]
  have hcond : 1 < (mp.data ++ ['/']).length
      ∧ (mp.data ++ ['/']).getLast? = some '/' := by
    constructor
    · rw [List.length_append]
      have h0 : 0 < mp.data.length := List.length_pos.mpr hmpne
      show 1 < mp.data.length + 1
      omega
    · exact List.getLast?_concat mp.data
  rw [if_pos hcond, List.dropLast_concat]

theorem normalize_append_inj (mp q1 q2 : String)
    (hmp : mp.data.head? = some '/')
    (h1 : normalize_path_segment q1 = q1)
    (h2 : normalize_path_segment q2 = q2) (hne : q1 ≠ q2) :
    normalize_path_segment (mp ++ q1) ≠ normalize_path_segment (mp ++ q2) := by
  have hlen : ∀ q : String, normalize_path_segment q = q → q ≠ "/" →
      mp ≠ mp ++ q := by
    intro q hq hqr heq
    have hd := congrArg String.data heq
    rw [String.data_append] at hd
    have hqe : q.data = [] := by
      have hlen := congrArg List.length hd
      rw [List.length_append] at hlen
      have : q.data.length = 0 := by omega
      exact List.length_eq_zero.mp this
    exact data_ne_nil_of_head q (norm_fix_facts q hq).1 hqe
  by_cases hr1 : q1 = "/" <;> by_cases hr2 : q2 = "/"
  · exact absurd (hr1.trans hr2.symm) hne
  · subst hr1
    rw [normalize_append_root mp hmp, normalize_append_fix mp q2 hmp h2 hr2]
    exact hlen q2 h2 hr2
  · subst hr2
    rw [normalize_append_root mp hmp, normalize_append_fix mp q1 hmp h1 hr1]
    exact fun hh => hlen q1 h1 hr1 hh.symm
  · rw [normalize_append_fix mp q1 hmp h1 hr1,
      normalize_append_fix mp q2 hmp h2 hr2]
    exact fun hh => hne (str_append_left_cancel mp q1 q2 hh)

theorem token_append_inj : ∀ (a b x y : List Char),
    (∀ c ∈ a, c ≠ ' ') → (∀ c ∈ b, c ≠ ' ') →
    a ++ ' ' :: x = b ++ ' ' :: y → a = b ∧ x = y
  | [], [], x, y, _, _, h => by simpa using h
  | [], d :: bt, x, y, _, hb, h => by
      simp only [List.nil_append, List.cons_append, List.cons.injEq] at h
      exact absurd h.1.symm (hb d (List.mem_cons_self _ _))
  | c :: at_, [], x, y, ha, _, h => by
      simp only [List.nil_append, List.cons_append, List.cons.injEq] at h
      exact absurd h.1 (ha c (List.mem_cons_self _ _))
  | c :: at_, d :: bt, x, y, ha, hb, h => by
      simp only [List.cons_append, List.cons.injEq] at h
      have hrec := token_append_inj at_ bt x y
        (fun e he => ha e (List.mem_cons_of_mem _ he))
        (fun e he => hb e (List.mem_cons_of_mem _ he)) h.2
      exact ⟨by rw [h.1, hrec.1], hrec.2⟩

theorem splitKey_fst_no_space (k : String) :
    ∀ c ∈ (splitKey k).1.data, c ≠ ' ' := by
  intro c hc
  have hp := List.mem_takeWhile_imp hc
  simpa using hp

theorem composedKey_eq (mp k : String)
    (hfix : normalize_path_segment (splitKey k).2 = (splitKey k).2) :
    composedKey mp k = (splitKey k).1 ++ " "
      ++ normalize_path_segment (mp ++ (splitKey k).2) := by
  rw [composedKey, hfix]

theorem composedKey_inj (mp k1 k2 : String)
    (hmp : mp.data.head? = some '/')
    (hw1 : wfKey k1 = true) (hw2 : wfKey k2 = true) (hne : k1 ≠ k2) :
    composedKey mp k1 ≠ composedKey mp k2 := by
  rw [wfKey, Bool.and_eq_true, beq_iff_eq, beq_iff_eq] at hw1 hw2
  obtain ⟨hr1, hf1⟩ := hw1
  obtain ⟨hr2, hf2⟩ := hw2
  intro hEq
  rw [composedKey_eq mp k1 hf1, composedKey_eq mp k2 hf2] at hEq
  have hdata := congrArg String.data hEq
  have hsp : (" " : String).data = [' '] := rfl
  simp only [String.data_append, hsp, List.append_assoc,
    List.singleton_append] at hdata
  obtain ⟨hm, hC⟩ := token_append_inj _ _ _ _
    (splitKey_fst_no_space k1) (splitKey_fst_no_space k2) hdata
  have hq : (splitKey k1).2 = (splitKey k2).2 := by
    by_contra hqq
    exact normalize_append_inj mp (splitKey k1).2 (splitKey k2).2 hmp hf1 hf2
      hqq (String.ext hC)
  exact hne (by rw [← hr1, ← hr2, String.ext hm, hq])

theorem findVal_foldl_mount_ne (mp key : String)
    (l : List (String × Nat)) (acc : List (String × Nat))
    (h : ∀ kv ∈ l, composedKey mp kv.1 ≠ key) :
    findVal (l.foldl (mountRouteStep mp) acc) key = findVal acc key := by
  induction l generalizing acc with
  | nil => rfl
  | cons a t ih =>
    rw [List.foldl_cons,
      ih _ (fun kv hm => h kv (List.mem_cons_of_mem a hm)),
      mountRouteStep,
      findVal_mapInsert_of_ne _ _ _ _
        (fun hh => h a (List.mem_cons_self a t) hh.symm)]

theorem findVal_foldl_mount_mem (mp : String) (l acc : List (String × Nat))
    (kv : String × Nat) (hm : kv ∈ l)
    (hdist : ∀ kv' ∈ l, kv'.1 ≠ kv.1 →
      composedKey mp kv'.1 ≠ composedKey mp kv.1)
    (hnd : (l.map Prod.fst).Nodup) :
    findVal (l.foldl (mountRouteStep mp) acc) (composedKey mp kv.1)
      = some kv.2 := by
  obtain ⟨s, t, rfl⟩ := List.append_of_mem hm
  rw [List.foldl_append, List.foldl_cons]
  have hnotin : kv.1 ∉ (t.map Prod.fst) := by
    have := hnd
    rw [List.map_append, List.map_cons] at this
    have h2 := (List.nodup_append.mp this).2
    rw [List.nodup_cons] at h2
    exact h2.1.1
  have ht : ∀ kv' ∈ t, composedKey mp kv'.1 ≠ composedKey mp kv.1 := by
    intro kv' hkv'
    apply hdist kv' (by simp [hkv'])
    intro hh
    exact hnotin (hh ▸ List.mem_map_of_mem Prod.fst hkv')
  rw [findVal_foldl_mount_ne mp _ t _ ht, mountRouteStep,
    findVal_mapInsert_self]

/-- C5: after `A.mount(p, B)` every route of `B` — whose stored keys are
well-formed `"METHOD /path"` strings with normalized paths, as
`add_route` and `mount` maintain, with the map's keys distinct — is
present in `A` under `method ++ " " ++ normalize(normalize(p) ++
normalize(path))` with the same handler; every static mount `(prefix,
root)` of `B` is appended as `(normalize(normalize(p) ++
normalize(prefix)), root)`; and a route whose composed key matches
nothing in `B` at call time (e.g. one added to `B` afterwards) is not
present in the mounted result: the merge is a value copy of `B`'s
contents at call time. -/
theorem mount_copies_routes (A B : Router) (p : String)
    (hwf : ∀ kv ∈ B.routes_, wfKey kv.1 = true)
    (hnd : (B.routes_.map Prod.fst).Nodup) :
    (∀ kv ∈ B.routes_,
      findVal (A.mount p B).routes_
        ((splitKey kv.1).1 ++ " " ++ normalize_path_segment
          (normalize_path_segment p
            ++ normalize_path_segment (splitKey kv.1).2))
        = some kv.2)
    ∧ (A.mount p B).static_paths_
        = A.static_paths_ ++ B.static_paths_.map
            (fun e => (normalize_path_segment
              (normalize_path_segment p ++ normalize_path_segment e.1),
              e.2))
    ∧ (∀ key2,
        (∀ kv ∈ B.routes_,
          composedKey (normalize_path_segment p) kv.1 ≠ key2) →
        findVal A.routes_ key2 = none →
        findVal (A.mount p B).routes_ key2 = none) := by
  refine ⟨?_, rfl, ?_⟩
  · intro kv hkv
    have hw := hwf kv hkv
    rw [wfKey, Bool.and_eq_true, beq_iff_eq, beq_iff_eq] at hw
    have hkey : (splitKey kv.1).1 ++ " " ++ normalize_path_segment
        (normalize_path_segment p
          ++ normalize_path_segment (splitKey kv.1).2)
        = composedKey (normalize_path_segment p) kv.1 := rfl
    rw [hkey]
    show findVal
      (B.routes_.foldl (mountRouteStep (normalize_path_segment p)) A.routes_)
      (composedKey (normalize_path_segment p) kv.1) = some kv.2
    exact findVal_foldl_mount_mem (normalize_path_segment p) B.routes_
      A.routes_ kv hkv
      (fun kv' hkv' hne => composedKey_inj _ kv'.1 kv.1 (norm_head p)
        (hwf kv' hkv') (hwf kv hkv) hne)
      hnd
  · intro key2 hnotin hnone
    show findVal
      (B.routes_.foldl (mountRouteStep (normalize_path_segment p)) A.routes_)
      key2 = none
    rw [findVal_foldl_mount_ne _ _ _ _ hnotin]
    exact hnone

theorem mount_copies_routes_witness :
    findVal
      (Router.mount ⟨[], [], ""⟩ "/sub" ⟨[("GET /x", 7)], [], ""⟩).routes_
      ((splitKey "GET /x").1 ++ " " ++ normalize_path_segment
        (normalize_path_segment "/sub"
          ++ normalize_path_segment (splitKey "GET /x").2))
      = some 7 :=
  (mount_copies_routes ⟨[], [], ""⟩ ⟨[("GET /x", 7)], [], ""⟩ "/sub"
    (by decide) (by decide)).1 ("GET /x", 7) (by simp)

end Haka
